import Mathlib

/-!
Verification development for the vidyut-prakriya derivation engine
(kṛt/uṇādi affixation module and the regression-test harness).

The definitions below are a shallow embedding of the Rust sources:

* `src/vidyut-prakriya/src/krt/utils.rs`       — `KrtPrakriya` and its methods
* `src/vidyut-prakriya/src/krt/unadi_sutras.rs` — `try_add_unadi` / `run`
* `src/vidyut-prakriya/src/bin/test_results.rs` — the regression harness

Parts of the engine that the claims depend on but whose sources are not in
the repository snapshot (the `Term`/`Prakriya` core, the it-saṃjñā
processor, `operators.rs`, the argument parsers, and the derivation
driver) are modelled from the specification; each such definition carries
a doc comment starting with `Modelled from the spec:`.

Mutation in the Rust code is modelled by explicit state passing; Rust
panics are modelled by `Option`/`none`; fallible operations by `Option`.
-/

namespace Vidyut

/-- Grammatical tags on a term (`tag.rs` is summarised by the spec as "a
closed enumerated universe"; we enumerate the tags the embedded code
mentions, plus a generic constructor for it-markers). -/
inductive Tag where
  | Dhatu
  | Pratyaya
  | Krt
  | Krtya
  | Unadi
  | Upasarga
  | kit
  | Rit
  | nit
  | Sit
  | zit
  | itC (c : Char)
deriving DecidableEq

/-- One morpheme of a derivation: citation form, current surface text and
tag set (spec §3 "Term"). -/
structure Term where
  upadesha : String
  text : String
  tags : List Tag
deriving DecidableEq

/-- Modelled from the spec: the kṛt-artha meaning selectors (`KrtArtha`
lives in the absent `args.rs`; only its identity matters for the claims,
so we model it as an enumerated type). -/
inductive KrtArtha where
  | Tacchila
  | Bhava
  | Karana
deriving DecidableEq

/-- Rule identifiers: `Rule::UP(..)` for Uṇādipāṭha rules, plus a generic
constructor for the remaining śāstras. -/
inductive Rule where
  | UP (code : String)
  | Other (code : String)
deriving DecidableEq

/-- Textual form of a rule id, used for the step log. -/
def ruleCode : Rule → String
  | .UP c => "UP " ++ c
  | .Other c => c

/-- The mutable derivation state (spec §3 "Prakriyā"): ordered terms, the
step log, the artha tag, the chandas flag, and — modelled from the spec's
optional-rule machinery (§5) — the accept/decline decision state that
`is_allowed`/`decline` consult. -/
structure Prakriya where
  terms : List Term
  artha : Option KrtArtha
  steps : List String
  chandasi : Bool
  accepted : List String
  declined : List String
deriving DecidableEq

namespace Term

/-- Embeds `Term::make_upadesha`: a fresh term whose text is its citation form. -/
def makeUpadesha (s : String) : Term := ⟨s, s, []⟩

/-- Embeds `Term::has_u`: the citation form equals `u`. -/
def hasU (t : Term) (u : String) : Bool := t.upadesha = u

/-- Embeds `Term::has_u_in`. -/
def hasUIn (t : Term) (us : List String) : Bool := us.contains t.upadesha

/-- Embeds `Term::has_text`. -/
def hasText (t : Term) (s : String) : Bool := t.text = s

/-- Embeds `Term::has_text_in`. -/
def hasTextIn (t : Term) (ss : List String) : Bool := ss.contains t.text

/-- Embeds `Term::has_tag`. -/
def hasTag (t : Term) (tag : Tag) : Bool := t.tags.contains tag

/-- Embeds `Term::has_antya`: the final sound belongs to the given set. -/
def hasAntya (t : Term) (set : List Char) : Bool :=
  match t.text.data.getLast? with
  | some c => set.contains c
  | none => false

/-- Tags are a set: adding an already-present tag is a no-op. -/
def addTag (t : Term) (tag : Tag) : Term :=
  if t.tags.contains tag then t else { t with tags := t.tags ++ [tag] }

/-- Embeds `Term::add_tags`. -/
def addTags (t : Term) (tags : List Tag) : Term := tags.foldl addTag t

/-- Embeds `Term::set_text`. -/
def setText (t : Term) (s : String) : Term := { t with text := s }

/-- Embeds `Term::set_antya`: replace the final sound of the text. -/
def setAntya (t : Term) (s : String) : Term :=
  { t with text := String.mk (t.text.data.dropLast ++ s.data) }

/-- Embeds `Term::is_dhatu`. -/
def isDhatu (t : Term) : Bool := t.hasTag Tag.Dhatu

/-- Embeds `Term::is_upasarga`. -/
def isUpasarga (t : Term) : Bool := t.hasTag Tag.Upasarga

end Term

/-- First index in a list satisfying a predicate. -/
def findFirstWhere (pred : Term → Bool) : List Term → Option Nat
  | [] => none
  | t :: ts =>
    if pred t then some 0
    else (findFirstWhere pred ts).map (· + 1)

/-- Last index in a list satisfying a predicate. -/
def findLastWhere (pred : Term → Bool) (l : List Term) : Option Nat :=
  match findFirstWhere pred l.reverse with
  | some i => some (l.length - 1 - i)
  | none => none

/-- Apply `f` to the element at index `i`; out-of-range indices leave the
list unchanged (as `Prakriya::set` does through `get_mut`). -/
def modifyAt (l : List Term) (i : Nat) (f : Term → Term) : List Term :=
  match l, i with
  | [], _ => []
  | t :: ts, 0 => f t :: ts
  | t :: ts, Nat.succ j => t :: modifyAt ts j f

/-- Last element of a term list. -/
def lastOf : List Term → Option Term
  | [] => none
  | [t] => some t
  | _ :: t :: ts => lastOf (t :: ts)

namespace Prakriya

/-- Embeds `Prakriya::get`. -/
def get (p : Prakriya) (i : Nat) : Option Term := p.terms[i]?

/-- Embeds `Prakriya::has(i, pred)`: false when the index is out of range. -/
def hasAt (p : Prakriya) (i : Nat) (pred : Term → Bool) : Bool :=
  match p.terms[i]? with
  | some t => pred t
  | none => false

/-- Embeds `Prakriya::set`. -/
def set (p : Prakriya) (i : Nat) (f : Term → Term) : Prakriya :=
  { p with terms := modifyAt p.terms i f }

/-- Embeds `Prakriya::push`. -/
def push (p : Prakriya) (t : Term) : Prakriya :=
  { p with terms := p.terms ++ [t] }

/-- Embeds `Prakriya::find_first(tag)`. -/
def findFirstTag (p : Prakriya) (tag : Tag) : Option Nat :=
  findFirstWhere (fun t => t.hasTag tag) p.terms

/-- Embeds `Prakriya::run`: apply the operation, then log the rule id. -/
def run (p : Prakriya) (rule : Rule) (f : Prakriya → Prakriya) : Prakriya :=
  let p2 := f p
  { p2 with steps := p2.steps ++ [ruleCode rule] }

/-- Embeds `Prakriya::set_artha(Artha::Krt(a))`. -/
def setArtha (p : Prakriya) (a : KrtArtha) : Prakriya :=
  { p with artha := some a }

/-- Modelled from the spec: the optional-rule machinery (§5) records an
accept/decline decision per optional-rule encounter; `is_allowed` consults
the branch's decision vector. We model the decision vector as the list of
rule codes accepted on this branch. -/
def isAllowed (p : Prakriya) (rule : Rule) : Bool :=
  p.accepted.contains (ruleCode rule)

/-- Modelled from the spec: declining an optional rule records the
"decline" decision for this branch (§5). -/
def decline (p : Prakriya) (rule : Rule) : Prakriya :=
  { p with declined := p.declined ++ [ruleCode rule] }

end Prakriya

/-! ### The it-saṃjñā processor, modelled from the spec (§4.2) -/

/-- SLP1 vowels. -/
def vowels : List Char :=
  ['a', 'A', 'i', 'I', 'u', 'U', 'f', 'F', 'x', 'X', 'e', 'E', 'o', 'O']

/-- A sound that is not a vowel. -/
def isConsonant (c : Char) : Bool := !(vowels.contains c)

/-- Modelled from the spec: the initial marker phonemes of a citation-form
affix ("initial ñ/ṭ/ḍ/ś", §4.2), in SLP1. -/
def initialItChars : List Char := ['Y', 'w', 'q', 'S']

/-- The tag attached for a given marker phoneme (kit, ṅit, ṇit, ṣit,
śit, ... — spec §4.2). -/
def tagOfIt (c : Char) : Tag :=
  if c = 'k' then Tag.kit
  else if c = 'R' then Tag.Rit
  else if c = 'n' then Tag.nit
  else if c = 'S' then Tag.Sit
  else if c = 'z' then Tag.zit
  else Tag.itC c

/-- Modelled from the spec: it-saṃjñā on a citation-form text — strip an
initial marker phoneme (ñ/ṭ/ḍ/ś) and a final marker consonant, returning
the cleaned text together with the tags the markers indicate (§4.2). -/
def itProcessText (s : String) : String × List Tag :=
  let (l1, tags1) :=
    match s.data with
    | c :: rest =>
      if initialItChars.contains c then (rest, [tagOfIt c]) else (s.data, [])
    | [] => (s.data, [])
  match l1.getLast? with
  | some c =>
    if isConsonant c then (String.mk l1.dropLast, tags1 ++ [tagOfIt c])
    else (String.mk l1, tags1)
  | none => (String.mk l1, tags1)

/-- Modelled from the spec: whether a text still carries a marker phoneme
in marker position (initial ñ/ṭ/ḍ/ś or a final consonant) — the "marker
residue" that §4.2 requires to be absent after it-saṃjñā. -/
def hasItResidue (s : String) : Bool :=
  (match s.data.head? with
   | some c => initialItChars.contains c
   | none => false) ||
  (match s.data.getLast? with
   | some c => isConsonant c
   | none => false)

/-- Modelled from the spec: run it-saṃjñā on the term at index `i`:
delete the marker phonemes from its text and add the tags they indicate
(§4.2). -/
def itSamjnaTerm (t : Term) : Term :=
  let (s, tags) := itProcessText t.text
  { t with text := s, tags := (Term.addTags ⟨t.upadesha, s, t.tags⟩ tags).tags }

/-- Modelled from the spec: `it_samjna::run(p, i)` — fails only when the
index is out of range (the internal `RuleInvariantViolation` of §7);
otherwise processes the term at `i`. -/
def itSamjnaRun (p : Prakriya) (i : Nat) : Option Prakriya :=
  if i < p.terms.length then some (p.set i itSamjnaTerm) else none

/-! ### Affixes (`args.rs` is absent; the constructors and citation forms
below are those the embedded `krt` code mentions) -/

/-- The base kṛt affixes appearing in the embedded fragment (`BaseKrt`). -/
inductive BaseKrt where
  | kta
  | tavya
  | tavyat
  | anIyar
  | yat
  | kyap
  | Ryat
deriving DecidableEq

/-- Citation form of a base kṛt affix (`BaseKrt::as_str`). -/
def BaseKrt.asStr : BaseKrt → String
  | .kta => "kta"
  | .tavya => "tavya"
  | .tavyat => "tavyat"
  | .anIyar => "anIyar"
  | .yat => "yat"
  | .kyap => "kyap"
  | .Ryat => "Ryat"

/-- The uṇādi affixes of the embedded fragment of `unadi_sutras.rs`. -/
inductive Unadi where
  | uR
  | YuR
  | u
  | katu
  | qa
  | eRu
  | abac
  | manin
  | in_
deriving DecidableEq

/-- Citation form of an uṇādi affix (`Unadi::as_str`). -/
def Unadi.asStr : Unadi → String
  | .uR => "uR"
  | .YuR => "YuR"
  | .u => "u"
  | .katu => "katu"
  | .qa => "qa"
  | .eRu => "eRu"
  | .abac => "abac"
  | .manin => "manin"
  | .in_ => "in"

/-- Embeds `Krt`: either a base kṛt affix or an uṇādi affix. -/
inductive Krt where
  | Base (b : BaseKrt)
  | Unadi (un : Unadi)
deriving DecidableEq

/-- Embeds `Krt::as_str`. -/
def Krt.asStr : Krt → String
  | .Base b => b.asStr
  | .Unadi un => un.asStr

/-- The kṛtya affixes listed in `Krt::to_term` (adhikāra 3.1.95). -/
def krtyaList : List BaseKrt :=
  [.tavyat, .tavya, .anIyar, .yat, .kyap, .Ryat]

/-- Embeds `Krt::to_term`: a fresh pratyaya term in citation form, tagged
`Pratyaya` and `Krt`, plus `Krtya` for the kṛtya affixes and `Unadi` for
uṇādi affixes. -/
def Krt.toTerm (k : Krt) : Term :=
  let krt := (Term.makeUpadesha k.asStr).addTags [Tag.Pratyaya, Tag.Krt]
  let krt :=
    match k with
    | .Base b => if krtyaList.contains b then krt.addTag Tag.Krtya else krt
    | .Unadi _ => krt
  match k with
  | .Unadi _ => krt.addTag Tag.Unadi
  | _ => krt

/-! ### `KrtPrakriya` (krt/utils.rs) -/

/-- Wrapper for `Prakriya` used by the kṛt module: remembers the requested
affix, the active meaning context, and whether a kṛt pratyaya has been
added. -/
structure KrtPrakriya where
  p : Prakriya
  iDhatu : Nat
  krt : Krt
  ruleArtha : Option KrtArtha
  hadMatch : Bool
  hasKrt : Bool
deriving DecidableEq

namespace KrtPrakriya

/-- Embeds `KrtPrakriya::new`. -/
def new (p : Prakriya) (krt : Krt) : KrtPrakriya :=
  { p := p
    iDhatu := (findFirstWhere Term.isDhatu p.terms).getD 0
    krt := krt
    ruleArtha := none
    hadMatch := false
    hasKrt := false }

/-- Embeds `KrtPrakriya::dhatu` (the Rust code `expect`s the term to be present;
`none` models that panic). -/
def dhatuOf (kp : KrtPrakriya) : Option Term := kp.p.get kp.iDhatu

/-- Embeds `KrtPrakriya::has_upapada`. -/
def hasUpapada (kp : KrtPrakriya) (upadesha : String) : Bool :=
  decide (0 < kp.iDhatu) && kp.p.hasAt (kp.iDhatu - 1) (fun t => t.hasU upadesha)

/-- Embeds `KrtPrakriya::with_context`, context-entry half: push the meaning
context. -/
def enterCtx (kp : KrtPrakriya) (ra : KrtArtha) : KrtPrakriya :=
  { kp with ruleArtha := some ra, hadMatch := false }

/-- Embeds `KrtPrakriya::with_context`, context-exit half: restore the saved
meaning context of `old`. -/
def restoreCtx (old cur : KrtPrakriya) : KrtPrakriya :=
  { cur with ruleArtha := old.ruleArtha, hadMatch := old.hadMatch }

/-- The body of `with_context` after the artha guard: push the context,
run the closure unless a kṛt pratyaya has already been added, and pop the
context. -/
def withContextBody (kp : KrtPrakriya) (ra : KrtArtha)
    (f : KrtPrakriya → KrtPrakriya) : KrtPrakriya :=
  let kp1 := kp.enterCtx ra
  let kp2 := if kp1.hasKrt then kp1 else f kp1
  restoreCtx kp kp2

/-- Embeds `KrtPrakriya::with_context(rule_artha, closure)`: if the prakriya
carries a kṛt artha different from `rule_artha`, do nothing; otherwise
run the guarded body. -/
def withContext (kp : KrtPrakriya) (ra : KrtArtha)
    (f : KrtPrakriya → KrtPrakriya) : KrtPrakriya :=
  match kp.p.artha with
  | some pa =>
    if pa ≠ ra then kp
    else withContextBody kp ra f
  | none => withContextBody kp ra f

/-- Embeds `KrtPrakriya::try_add_with`: on a match, push the affix term, run
`func`, run it-saṃjñā on the new last term (its failure — the Rust
`expect` — is the outer `none`), and record the artha and `has_krt`.
Always records `had_match`. -/
def tryAddWith (kp : KrtPrakriya) (rule : Rule) (krt : Krt)
    (func : Prakriya → Prakriya) : Option (KrtPrakriya × Bool) :=
  let kp1 := { kp with hadMatch := true }
  if kp1.krt = krt ∧ kp1.hasKrt = false then
    let p1 := kp1.p.run rule (fun p => func (p.push krt.toTerm))
    match itSamjnaRun p1 (p1.terms.length - 1) with
    | none => none
    | some p2 =>
      let p3 :=
        match kp1.ruleArtha with
        | some a => p2.setArtha a
        | none => p2
      some ({ kp1 with p := p3, hasKrt := true }, true)
  else
    some (kp1, false)

/-- Embeds `KrtPrakriya::try_add`. -/
def tryAdd (kp : KrtPrakriya) (rule : Rule) (krt : Krt) :
    Option (KrtPrakriya × Bool) :=
  kp.tryAddWith rule krt (fun p => p)

/-- Modelled from the spec: `op::adesha` (operators.rs is absent) —
"substitute term i's text with s and log `rule`" (§4.1). -/
def adesha (rule : Rule) (p : Prakriya) (i : Nat) (s : String) : Prakriya :=
  p.run rule (fun p => p.set i (fun t => t.setText s))

/-- Embeds `KrtPrakriya::try_replace_lakara`. -/
def tryReplaceLakara (kp : KrtPrakriya) (rule : Rule) (iLakara : Nat)
    (krt : Krt) : KrtPrakriya × Bool :=
  let kp1 := { kp with hadMatch := true }
  if kp1.krt = krt ∧ kp1.hasKrt = false then
    ({ kp1 with p := adesha rule kp1.p iLakara krt.asStr, hasKrt := true }, true)
  else
    (kp1, false)

/-- Embeds `KrtPrakriya::optional_try_add_with`: on a match, consult the branch's
optional-rule decision; accepted rules run `try_add_with` (reporting
`true` regardless of its result), declined rules are recorded. -/
def optionalTryAddWith (kp : KrtPrakriya) (rule : Rule) (krt : Krt)
    (func : Prakriya → Prakriya) : Option (KrtPrakriya × Bool) :=
  if krt = kp.krt ∧ kp.hasKrt = false then
    if kp.p.isAllowed rule then
      match kp.tryAddWith rule krt func with
      | none => none
      | some (kp2, _) => some (kp2, true)
    else
      some ({ kp with p := kp.p.decline rule }, false)
  else
    some (kp, false)

/-- Embeds `KrtPrakriya::optional_try_add`. -/
def optionalTryAdd (kp : KrtPrakriya) (rule : Rule) (krt : BaseKrt) :
    Option (KrtPrakriya × Bool) :=
  kp.optionalTryAddWith rule (.Base krt) (fun p => p)

end KrtPrakriya

/-! ### The uṇādi dispatcher (krt/unadi_sutras.rs, embedded fragment) -/

/-- The sound set `s("Yam")` of `unadi_sutras.rs`: the nasal consonants
(the `Yam` pratyāhāra), in SLP1. -/
def NAM : List Char := ['Y', 'm', 'N', 'R', 'n']

/-- The `mark_as` helper of `unadi_sutras.rs`: tag the last term. -/
def markAs (tag : Tag) : Prakriya → Prakriya := fun p =>
  p.set (p.terms.length - 1) (fun t => t.addTag tag)

/-- The `set_text` helper of `unadi_sutras.rs`: set the text of the
second-to-last term (the dhātu). -/
def setTextOp (text : String) : Prakriya → Prakriya := fun p =>
  p.set (p.terms.length - 2) (fun t => t.setText text)

/-- The `set_antya` helper of `unadi_sutras.rs`: replace the final sound
of the second-to-last term. -/
def setAntyaOp (text : String) : Prakriya → Prakriya := fun p =>
  p.set (p.terms.length - 2) (fun t => t.setAntya text)

/-- The affix dispatch of `try_add_unadi`, once the dhātu term is in
hand: each arm guards on the dhātu and calls the `KrtPrakriya` adders.
The arms cover the affixes of the `Unadi` type above; the source's
remaining arms are the same shape. -/
def unadiDispatch (krt : Unadi) (i : Nat)
    (kp : KrtPrakriya) (dhatu : Term) : Option KrtPrakriya :=
  match krt with
  | .uR =>
    if dhatu.hasUIn ["qukf\\Y", "vA\\", "pA\\", "ji\\", "qumi\\Y",
        "zvada~\\", "sA\\Da~", "aSU~\\"] then
      -- kAru, vAyu, ...
      (kp.tryAdd (.UP "1.1") (.Unadi krt)).map (·.1)
    else if kp.p.chandasi && dhatu.hasU "i\\R" then
      -- Ayu
      (kp.tryAdd (.UP "1.2") (.Unadi krt)).map (·.1)
    else some kp
  | .YuR =>
    if dhatu.hasTextIn ["dF", "san", "jan", "car", "caw"] then
      (kp.tryAdd (.UP "1.3") (.Unadi krt)).map (·.1)
    else if dhatu.hasU "tF" then
      -- tAlu
      (kp.tryAddWith (.UP "1.5") (.Unadi krt)
        (fun q => q.set kp.iDhatu (fun t => t.setAntya "l"))).map (·.1)
    else some kp
  | .u =>
    if dhatu.hasTextIn ["Bf", "mf", "SI", "tF", "car", "tsar", "tan",
        "Dan", "mi", "masj"] then
      (kp.tryAdd (.UP "1.7") (.Unadi krt)).map (·.1)
    else if dhatu.hasTextIn ["SF", "svf", "snih", "trap", "as", "vas",
        "han", "klid", "banD", "man"] then
      (kp.tryAdd (.UP "1.10") (.Unadi krt)).map (·.1)
    else if dhatu.hasText "syand" then
      (kp.tryAddWith (.UP "1.11") (.Unadi krt) (setTextOp "sinD")).map (·.1)
    else if dhatu.hasText "und" then
      (kp.tryAddWith (.UP "1.12") (.Unadi krt) (setTextOp "ind")).map (·.1)
    else if dhatu.hasText "Iz" then
      (kp.tryAddWith (.UP "1.13") (.Unadi krt) (fun q =>
        (q.set i (fun t => t.setText "iz")).set (i + 1)
          (fun t => t.addTag Tag.kit))).map (·.1)
    else if dhatu.hasText "skand" then
      (kp.tryAddWith (.UP "1.14") (.Unadi krt) (setTextOp "kand")).map (·.1)
    else if dhatu.hasText "sfj" then
      (kp.tryAddWith (.UP "1.15") (.Unadi krt) (setTextOp "rajj")).map (·.1)
    else if dhatu.hasText "kft" then
      (kp.tryAddWith (.UP "1.16") (.Unadi krt) (setTextOp "tfk")).map (·.1)
    else if dhatu.hasText "yA" then
      (kp.tryAddWith (.UP "1.21") (.Unadi krt) (setTextOp "yay")).map (·.1)
    else some kp
  | .katu =>
    if dhatu.hasU "qukf\\Y" then
      -- kratu
      (kp.tryAdd (.UP "1.77") (.Unadi krt)).map (·.1)
    else some kp
  | .qa =>
    if dhatu.hasAntya NAM then
      (kp.tryAdd (.UP "1.111") (.Unadi krt)).map (·.1)
    else some kp
  | .eRu =>
    if dhatu.hasTextIn ["kf", "hf"] then
      (kp.tryAdd (.UP "2.1") (.Unadi krt)).map (·.1)
    else some kp
  | .abac =>
    if dhatu.hasTextIn ["kf", "kad", "kaq", "kaw"] then
      match
        (if dhatu.hasText "kad" then
          (kp.optionalTryAddWith (.UP "4.82") (.Unadi krt)
            (markAs Tag.Rit)).map (·.1)
         else some kp) with
      | none => none
      | some kp2 => (kp2.tryAdd (.UP "4.81") (.Unadi krt)).map (·.1)
    else some kp
  | .manin =>
    (kp.tryAdd (.UP "4.144") (.Unadi krt)).map (·.1)
  | .in_ =>
    (kp.tryAdd (.UP "4.117") (.Unadi krt)).map (·.1)

/-- Embeds `try_add_unadi` after the dhātu has been found at index `i`: skip
`RiN`-extended roots, build the `KrtPrakriya` wrapper, fetch the dhātu
(its absence is the Rust `expect` panic), dispatch, and return
`Some(kp.has_krt)`. -/
def tryAddUnadiCore (p : Prakriya) (krt : Unadi) (i : Nat) :
    Option (Prakriya × Option Bool) :=
  -- HACK (source): avoid kamu~ + Nin so that kaMsa but not kAMsa derives.
  if p.hasAt (i + 1) (fun t => t.hasU "RiN") then some (p, none)
  else
    match (KrtPrakriya.new p (Krt.Unadi krt)).dhatuOf with
    | none => none
    | some dhatu =>
      match unadiDispatch krt i (KrtPrakriya.new p (Krt.Unadi krt)) dhatu with
      | none => none
      | some kpEnd => some (kpEnd.p, some kpEnd.hasKrt)

/-- Embeds `try_add_unadi(p, krt)`: find the first dhātu (`None` if absent) and
run the guarded dispatch. The inner `Option Bool` is the Rust return
value; the outer `Option` models panics (the `expect` inside
`try_add_with`), which the theorems below show are never hit. -/
def tryAddUnadi (p : Prakriya) (krt : Unadi) : Option (Prakriya × Option Bool) :=
  match p.findFirstTag Tag.Dhatu with
  | none => some (p, none)
  | some i => tryAddUnadiCore p krt i

/-- Embeds `run(p, krt)` of `unadi_sutras.rs`: dispatch uṇādi affixes through
`try_add_unadi`, defaulting its `None` to `false`; other affixes return
`false` unchanged. -/
def runUnadi (p : Prakriya) (krt : Krt) : Option (Prakriya × Bool) :=
  match krt with
  | .Unadi un =>
    match tryAddUnadi p un with
    | none => none
    | some (p2, ob) => some (p2, ob.getD false)
  | _ => some (p, false)

/-! ### Spec-modelled readout for the uṇādi end-to-end scenario (E5) -/

/-- Modelled from the spec: vṛddhi of a stem-final vowel under the
affix's markers (§4.3.3); for the vowel ṛ (SLP1 `f`) the vṛddhi is `Ar`,
the case E5 exercises. -/
def vrddhiFinal (s : String) : String :=
  match s.data.getLast? with
  | some c => if c = 'f' then String.mk (s.data.dropLast ++ ['A', 'r']) else s
  | _ => s

/-- Modelled from the spec: the aṅga stage and textual readout (absent
from the snapshot) for a dhātu + uṇādi-pratyaya pair — apply vṛddhi to
the dhātu under a ṇit affix (§4.3.3) and concatenate the texts (§2);
per E5 this takes kf + u (from `uR`) to `kAru`. -/
def angaStemAfterUnadi (p : Prakriya) : String :=
  match p.terms with
  | [d, a] =>
    if a.hasTag Tag.Rit then vrddhiFinal d.text ++ a.text
    else d.text ++ a.text
  | _ => ""

/-! ### List utilities used by the harness (sort, dedup, split) -/

/-- Byte-wise lexicographic comparison on character lists (the order Rust
`sort` uses for strings). -/
def leChars : List Char → List Char → Bool
  | [], _ => true
  | _ :: _, [] => false
  | a :: as_, b :: bs =>
    if a.toNat < b.toNat then true
    else if b.toNat < a.toNat then false
    else leChars as_ bs

/-- Lexicographic order on strings. -/
def strLe (a b : String) : Bool := leChars a.data b.data

/-- Insertion into a sorted list. -/
def insertSorted (x : String) : List String → List String
  | [] => [x]
  | y :: ys => if strLe x y then x :: y :: ys else y :: insertSorted x ys

/-- Embeds `Vec::sort` on strings (insertion sort; the sorted result is unique,
so the algorithm choice is immaterial). -/
def sortStrings (l : List String) : List String :=
  l.foldr insertSorted []

/-- Embeds `Vec::dedup`: remove consecutive duplicates. -/
def dedupAdj : List String → List String
  | [] => []
  | [x] => [x]
  | x :: y :: r => if x = y then dedupAdj (y :: r) else x :: dedupAdj (y :: r)

/-- Embeds `actual.sort(); actual.dedup();` of the harness. -/
def sortDedup (l : List String) : List String := dedupAdj (sortStrings l)

/-- Rust `str::split('|')` (note: `""` splits to `[""]`, and empty pieces
are kept). -/
def splitPipeAux : List Char → List Char → List String
  | [], acc => [String.mk acc.reverse]
  | c :: cs, acc =>
    if c = '|' then String.mk acc.reverse :: splitPipeAux cs []
    else splitPipeAux cs (c :: acc)

/-- Embeds `padas.split('|')`. -/
def splitPipe (s : String) : List String := splitPipeAux s.data []

/-- Set equality of string lists, the spec's words for the row check
("the set of derived texts ... does not equal the `|`-split expected
set"); used to compare the spec's reading against the code's list
comparison. -/
def sameSet (a b : List String) : Bool :=
  a.all (fun x => b.contains x) && b.all (fun x => a.contains x)

/-! ### The regression harness (bin/test_results.rs)

The harness's engine calls (argument parsers, `create_dhatu`, the
`derive_*` drivers) live outside the snapshot; they are modelled from the
spec as an abstract `Engine` record (`none` = the typed error that `?`
propagates).  The control flow around them — field indexing order, error
handling, the expected/actual comparison, exit codes — is embedded from
`test_results.rs`. -/

/-- Modelled from the spec: the external engine and parsers the harness
calls (§4.4, §6); each parser returns `none` on malformed input and the
derive functions return the derived surface texts. -/
structure Engine where
  createDhatu : String → String → String → Option String
  parseSanadi : String → Option String
  parsePrayoga : String → Option String
  parseLakara : String → Option String
  parsePurusha : String → Option String
  parseVacana : String → Option String
  deriveTin : String → String → String → String → String → String → List String
  deriveKrd : List String → Option (List String)

/-- What one harness row produces: a pass, a `[ FAIL ]` report, an
`ERROR: Row is malformed` line, or a Rust panic (out-of-bounds record
index / failed `assert!`), which aborts the process. -/
inductive RowOutcome where
  | passed
  | failReported
  | malformedErr
  | panicked
deriving DecidableEq

/-- Embeds `test_tinanta(line)`: index `r[0]`–`r[3]` (panicking when absent),
build the dhātu (`?` → malformed), then index and parse `r[4]`–`r[8]` in
source order, derive, sort + dedup, and report `[ FAIL ]` iff the
`|`-split expected list differs from the actual list. -/
def testTinanta (e : Engine) (fields : List String) : RowOutcome :=
  match fields[0]? with
  | none => .panicked
  | some padas =>
  match fields[1]? with
  | none => .panicked
  | some upadesha =>
  match fields[2]? with
  | none => .panicked
  | some gana =>
  match fields[3]? with
  | none => .panicked
  | some number =>
  match e.createDhatu upadesha gana number with
  | none => .malformedErr
  | some dh =>
  match fields[4]? with
  | none => .panicked
  | some f4 =>
  match e.parseSanadi f4 with
  | none => .malformedErr
  | some sn =>
  match fields[5]? with
  | none => .panicked
  | some f5 =>
  match e.parsePrayoga f5 with
  | none => .malformedErr
  | some pr =>
  match fields[6]? with
  | none => .panicked
  | some f6 =>
  match e.parseLakara f6 with
  | none => .malformedErr
  | some la =>
  match fields[7]? with
  | none => .panicked
  | some f7 =>
  match e.parsePurusha f7 with
  | none => .malformedErr
  | some pu =>
  match fields[8]? with
  | none => .panicked
  | some f8 =>
  match e.parseVacana f8 with
  | none => .malformedErr
  | some va =>
    let actual := sortDedup (e.deriveTin dh sn pr la pu va)
    if splitPipe padas = actual then .passed else .failReported

/-- A deserialised krdanta CSV row: the `padas` field plus the remaining
typed fields (kept abstract as strings). -/
structure KRow where
  padas : String
  rest : List String
deriving DecidableEq

/-- Embeds `test_krdanta(r)`: a serde deserialisation error (`r?`) is a malformed
row; the engine's failures are malformed rows; otherwise report
`[ FAIL ]` iff the `|`-split, empty-filtered expected list differs from
the sorted + deduped actual list. -/
def testKrdanta (e : Engine) (row : Option KRow) : RowOutcome :=
  match row with
  | none => .malformedErr
  | some r =>
    match e.deriveKrd r.rest with
    | none => .malformedErr
    | some texts =>
      if (splitPipe r.padas).filter (fun s => s ≠ "") = sortDedup texts then
        .passed
      else .failReported

/-- The per-row loop of `run` for `--data-type tinanta`: every row is
handed to `test_tinanta`. -/
def runTinRows (e : Engine) (rows : List (List String)) : List RowOutcome :=
  rows.map (testTinanta e)

/-- Fatal harness errors surfaced by `run`. -/
inductive HarnessErr where
  | hashMismatch
  | ioErr
deriving DecidableEq

/-- Embeds `run(args)` for tinanta data: first the hash check — modelled from
the spec: `check_file_hash` (absent `binary_only.rs`) is fatal on
mismatch (§6, E6) — then the file read (`?` on I/O error), then the
per-row loop. `hashOk`/`ioOk` stand for "the declared hash matches the
contents" and "the file read succeeded". -/
def runHarness (e : Engine) (hashOk ioOk : Bool)
    (rows : List (List String)) : Except HarnessErr (List RowOutcome) :=
  if hashOk = false then .error .hashMismatch
  else if ioOk = false then .error .ioErr
  else .ok (runTinRows e rows)

/-- Whether some row outcome was a panic (aborting the rayon pool). -/
def anyPanicked (outs : List RowOutcome) : Bool :=
  outs.contains .panicked

/-- Embeds `main`: clap argument errors exit 2; a `run` error prints it and
exits 1; a row panic propagates out of the rayon pool and aborts with
exit 101; otherwise the process exits 0 (mismatch reports never reach the
exit code). -/
def mainExit (argsOk : Bool) (e : Engine) (hashOk ioOk : Bool)
    (rows : List (List String)) : Nat :=
  if argsOk = false then 2
  else
    match runHarness e hashOk ioOk rows with
    | .error _ => 1
    | .ok outs => if anyPanicked outs then 101 else 0

/-! ### Concrete data used to evaluate the theorems -/

/-- The root kṛ after dhātu-kārya: upadeśa `qukf\Y`, text `kf`. -/
def kfT : Term := ⟨"qukf\\Y", "kf", [Tag.Dhatu]⟩

/-- A term with upadeśa `RiN`. -/
def riNT : Term := ⟨"RiN", "RiN", []⟩

/-- A prakriya holding only the resolved root kṛ. -/
def pKf : Prakriya := ⟨[kfT], none, [], false, [], []⟩

/-- A prakriya whose first dhātu kṛ is followed by a `RiN` term. -/
def pRin : Prakriya := ⟨[kfT, riNT], none, [], false, [], []⟩

/-- A prakriya with no term tagged `Dhatu`. -/
def pNoDhatu : Prakriya := ⟨[riNT], none, [], false, [], []⟩

/-- The `uR` pratyaya after it-saṃjñā: text `u`, marked ṇit. -/
def uRFinal : Term := ⟨"uR", "u", [Tag.Pratyaya, Tag.Krt, Tag.Unadi, Tag.Rit]⟩

/-- A `KrtPrakriya` that has already added its kṛt pratyaya. -/
def kpDone : KrtPrakriya := ⟨pKf, 0, Krt.Base BaseKrt.kta, none, false, true⟩

/-- A fresh `KrtPrakriya` requesting the uṇādi affix `uR` on kṛ. -/
def kpFresh : KrtPrakriya := KrtPrakriya.new pKf (Krt.Unadi Unadi.uR)

/-- A `KrtPrakriya` carrying a kṛt artha on its prakriya. -/
def kpArtha : KrtPrakriya :=
  ⟨{ pKf with artha := some KrtArtha.Tacchila }, 0, Krt.Base BaseKrt.kta,
    none, false, false⟩

/-- A concrete engine whose parsers all succeed. -/
def eW : Engine :=
  { createDhatu := fun _ _ _ => some "dh"
    parseSanadi := fun _ => some "sn"
    parsePrayoga := fun _ => some "pr"
    parseLakara := fun _ => some "la"
    parsePurusha := fun _ => some "pu"
    parseVacana := fun _ => some "va"
    deriveTin := fun _ _ _ _ _ _ => ["Bavati"]
    deriveKrd := fun _ => some ["kAruH"] }

/-- An engine that derives the set `{a, b}` listed in the order `b, a`. -/
def eBA : Engine :=
  { eW with deriveTin := fun _ _ _ _ _ _ => ["b", "a"] }

/-- A well-formed nine-field tinanta row whose expected padas are listed
unsorted (`b|a`). -/
def rowBA : List String := ["b|a", "u", "01", "0001", "", "p", "l", "pu", "v"]

/-- A well-formed nine-field tinanta row expecting `Bavati`. -/
def rowW : List String :=
  ["Bavati", "BU", "01", "0001", "", "kartari", "la~w", "praTama", "eka"]

/-- The last term of a prakriya's term list, as text. -/
def lastText (p : Prakriya) : Option String := (lastOf p.terms).map Term.text

/-! ### Helper lemmas -/

theorem findFirstWhere_eq_none {pred : Term → Bool} {l : List Term}
    (h : ∀ t ∈ l, pred t = false) : findFirstWhere pred l = none := by
  induction l with
  | nil => rfl
  | cons t ts ih =>
    simp only [findFirstWhere]
    rw [if_neg, ih]
    · rfl
    · exact fun t' ht' => h t' (List.mem_cons_of_mem _ ht')
    · simp [h t (List.mem_cons_self _ _)]

theorem findFirstWhere_isDhatu (p : Prakriya) :
    findFirstWhere Term.isDhatu p.terms = p.findFirstTag Tag.Dhatu := rfl

theorem modifyAt_append_length (l : List Term) (t : Term) (f : Term → Term) :
    modifyAt (l ++ [t]) l.length f = l ++ [f t] := by
  induction l with
  | nil => rfl
  | cons a as ih => simp [modifyAt, ih]

theorem lastOf_append_single (l : List Term) (t : Term) :
    lastOf (l ++ [t]) = some t := by
  induction l with
  | nil => rfl
  | cons a as ih =>
    cases as with
    | nil => rfl
    | cons b bs => simpa [lastOf] using ih

theorem modifyAt_cons_shape (x : Term) (xs : List Term) (i : Nat)
    (f : Term → Term) : ∃ y ys, modifyAt (x :: xs) i f = y :: ys := by
  cases i with
  | zero => exact ⟨f x, xs, rfl⟩
  | succ j => exact ⟨x, modifyAt xs j f, rfl⟩

theorem lastOf_modifyAt_last (ts : List Term) (f : Term → Term)
    (h : ts ≠ []) :
    lastOf (modifyAt ts (ts.length - 1) f) = (lastOf ts).map f := by
  induction ts with
  | nil => exact absurd rfl h
  | cons a as ih =>
    cases as with
    | nil => rfl
    | cons b bs =>
      have hlen : (a :: b :: bs).length - 1 = Nat.succ ((b :: bs).length - 1) := by
        simp
      rw [hlen]
      show lastOf (a :: modifyAt (b :: bs) ((b :: bs).length - 1) f) = _
      obtain ⟨y, ys, hy⟩ :=
        modifyAt_cons_shape b bs ((b :: bs).length - 1) f
      rw [hy]
      show lastOf (y :: ys) = _
      rw [← hy, ih (by simp)]
      rfl

theorem addTag_text (t : Term) (tag : Tag) : (t.addTag tag).text = t.text := by
  unfold Term.addTag; split <;> rfl

theorem addTags_text (ts : List Tag) : ∀ t : Term, (t.addTags ts).text = t.text := by
  induction ts with
  | nil => intro t; rfl
  | cons a as ih =>
    intro t
    show ((t.addTag a).addTags as).text = t.text
    rw [ih, addTag_text]

theorem toTerm_text (k : Krt) : k.toTerm.text = k.asStr := by
  cases k with
  | Base b =>
    show (if krtyaList.contains b then _ else _ : Term).text = _
    split <;> simp [addTag_text, addTags_text, Term.makeUpadesha, Krt.asStr]
  | Unadi un =>
    simp [Krt.toTerm, addTag_text, addTags_text, Term.makeUpadesha, Krt.asStr]

theorem itSamjnaTerm_text (t : Term) :
    (itSamjnaTerm t).text = (itProcessText t.text).1 := rfl

theorem itProcess_no_residue (k : Krt) :
    hasItResidue (itProcessText k.asStr).1 = false := by
  cases k with
  | Base b => cases b <;> decide
  | Unadi un => cases un <;> decide

/-! ### Claim theorems -/

/-- The `with_context` body is the identity once a kṛt pratyaya has been
added: the closure is skipped and the context pop restores every field. -/
theorem withContextBody_done (kp : KrtPrakriya) (ra : KrtArtha)
    (f : KrtPrakriya → KrtPrakriya) (h : kp.hasKrt = true) :
    kp.withContextBody ra f = kp := by
  cases kp with
  | mk p iD krt rA hM hK =>
    have h2 : hK = true := h
    subst h2
    rfl

/-- Before any kṛt pratyaya is added, the `with_context` body runs the
closure under the pushed context and then restores the saved context. -/
theorem withContextBody_runs (kp : KrtPrakriya) (ra : KrtArtha)
    (f : KrtPrakriya → KrtPrakriya) (h : kp.hasKrt = false) :
    kp.withContextBody ra f = kp.restoreCtx (f (kp.enterCtx ra)) := by
  cases kp with
  | mk p iD krt rA hM hK =>
    have h2 : hK = false := h
    subst h2
    rfl

/-- Claim C8: artha contexts nest like a stack — after any call to
`with_context`, whatever the closure did, `rule_artha` and `had_match`
are restored to exactly their values from before the call. -/
theorem withContext_restores_context (kp : KrtPrakriya) (ra : KrtArtha)
    (f : KrtPrakriya → KrtPrakriya) :
    (kp.withContext ra f).ruleArtha = kp.ruleArtha ∧
    (kp.withContext ra f).hadMatch = kp.hadMatch := by
  unfold KrtPrakriya.withContext
  split
  · split
    · exact ⟨rfl, rfl⟩
    · exact ⟨rfl, rfl⟩
  · exact ⟨rfl, rfl⟩

/-- Claim C3: `with_context(rule_artha, closure)` leaves the prakriya
unchanged when the underlying prakriya carries a kṛt artha different from
`rule_artha` (or when a kṛt pratyaya has already been added), and runs the
closure exactly when the artha is unspecified or matches and no kṛt
pratyaya has been added. -/
theorem withContext_artha_gating (kp : KrtPrakriya) (ra : KrtArtha)
    (f : KrtPrakriya → KrtPrakriya) :
    (∀ pa, kp.p.artha = some pa → pa ≠ ra → kp.withContext ra f = kp) ∧
    (kp.hasKrt = true → kp.withContext ra f = kp) ∧
    ((kp.p.artha = none ∨ kp.p.artha = some ra) → kp.hasKrt = false →
      kp.withContext ra f = kp.restoreCtx (f (kp.enterCtx ra))) := by
  refine ⟨?_, ?_, ?_⟩
  · intro pa hpa hne
    unfold KrtPrakriya.withContext
    rw [hpa]
    show (if pa ≠ ra then kp else kp.withContextBody ra f) = kp
    rw [if_pos hne]
  · intro hk
    unfold KrtPrakriya.withContext
    cases hpa : kp.p.artha with
    | none =>
      show kp.withContextBody ra f = kp
      exact withContextBody_done kp ra f hk
    | some pa =>
      show (if pa ≠ ra then kp else kp.withContextBody ra f) = kp
      by_cases hne : pa ≠ ra
      · rw [if_pos hne]
      · rw [if_neg hne]
        exact withContextBody_done kp ra f hk
  · intro hartha hk
    unfold KrtPrakriya.withContext
    cases hartha with
    | inl hnone =>
      rw [hnone]
      show kp.withContextBody ra f = _
      exact withContextBody_runs kp ra f hk
    | inr hsome =>
      rw [hsome]
      show (if ra ≠ ra then kp else kp.withContextBody ra f) = _
      rw [if_neg (by simp)]
      exact withContextBody_runs kp ra f hk

/-- Witness for C3: on a prakriya whose artha is `Tacchila`, a context
restricted to `Bhava` leaves the state untouched. -/
theorem withContext_artha_gating_witness :
    kpArtha.withContext KrtArtha.Bhava
      (fun kp => { kp with hadMatch := true }) = kpArtha :=
  (withContext_artha_gating kpArtha KrtArtha.Bhava
    (fun kp => { kp with hadMatch := true })).1
    KrtArtha.Tacchila rfl (by decide)

/-- Claim C9: once `has_krt` is set, `try_add`, `try_add_with`,
`optional_try_add`, `optional_try_add_with` and `try_replace_lakara` all
return `false` and leave the prakriya's terms (indeed the whole prakriya)
unchanged. -/
theorem hasKrt_blocks_all_adders (kp : KrtPrakriya) (rule : Rule)
    (krt : Krt) (b : BaseKrt) (iLak : Nat) (f : Prakriya → Prakriya)
    (h : kp.hasKrt = true) :
    kp.tryAddWith rule krt f = some ({ kp with hadMatch := true }, false) ∧
    kp.tryAdd rule krt = some ({ kp with hadMatch := true }, false) ∧
    kp.tryReplaceLakara rule iLak krt = ({ kp with hadMatch := true }, false) ∧
    kp.optionalTryAddWith rule krt f = some (kp, false) ∧
    kp.optionalTryAdd rule b = some (kp, false) := by
  refine ⟨?_, ?_, ?_, ?_, ?_⟩ <;>
    simp [KrtPrakriya.tryAddWith, KrtPrakriya.tryAdd,
      KrtPrakriya.tryReplaceLakara, KrtPrakriya.optionalTryAddWith,
      KrtPrakriya.optionalTryAdd, h]

/-- Witness for C9, at a `KrtPrakriya` that has already added `kta`. -/
theorem hasKrt_blocks_all_adders_witness :
    kpDone.tryAddWith (.UP "1.1") (.Base .kta) (fun p => p) =
      some ({ kpDone with hadMatch := true }, false) ∧
    kpDone.tryAdd (.UP "1.1") (.Base .kta) =
      some ({ kpDone with hadMatch := true }, false) ∧
    kpDone.tryReplaceLakara (.UP "1.1") 0 (.Base .kta) =
      ({ kpDone with hadMatch := true }, false) ∧
    kpDone.optionalTryAddWith (.UP "1.1") (.Base .kta) (fun p => p) =
      some (kpDone, false) ∧
    kpDone.optionalTryAdd (.UP "1.1") .kta = some (kpDone, false) :=
  hasKrt_blocks_all_adders kpDone (.UP "1.1") (.Base .kta) .kta 0
    (fun p => p) rfl

/-- Claim C4: derivation is deterministic — equal inputs produce equal
outputs for the uṇādi dispatcher, the harness row loop, and the harness's
sort-and-dedup aggregation (the embedded functions are pure state
transformers: the Rust code has no ambient mutable state or randomness). -/
theorem derivation_deterministic (p q : Prakriya) (k l : Unadi)
    (e : Engine) (rows rows2 : List (List String)) (d d2 : List String)
    (hp : p = q) (hk : k = l) (hr : rows = rows2) (hd : d = d2) :
    tryAddUnadi p k = tryAddUnadi q l ∧
    runTinRows e rows = runTinRows e rows2 ∧
    sortDedup d = sortDedup d2 := by
  subst hp; subst hk; subst hr; subst hd
  exact ⟨rfl, rfl, rfl⟩

/-- Witness for C4 at concrete inputs. -/
theorem derivation_deterministic_witness :
    tryAddUnadi pKf .uR = tryAddUnadi pKf .uR ∧
    runTinRows eW [rowW] = runTinRows eW [rowW] ∧
    sortDedup ["b", "a"] = sortDedup ["b", "a"] :=
  derivation_deterministic pKf pKf .uR .uR eW [rowW] [rowW]
    ["b", "a"] ["b", "a"] rfl rfl rfl rfl

/-- Claim C6: a hash mismatch is fatal before any row is parsed or any
derivation is performed — the harness result is the `HashMismatch` error,
and it depends neither on the engine (no derive call) nor on the rows (no
row parsed). -/
theorem hash_mismatch_fatal (e : Engine) (hashOk ioOk : Bool)
    (rows : List (List String)) (h : hashOk = false) :
    runHarness e hashOk ioOk rows = .error .hashMismatch ∧
    (∀ e2 : Engine,
      runHarness e hashOk ioOk rows = runHarness e2 hashOk ioOk rows) ∧
    (∀ rows2,
      runHarness e hashOk ioOk rows = runHarness e hashOk ioOk rows2) := by
  subst h
  exact ⟨rfl, fun _ => rfl, fun _ => rfl⟩

/-- Witness for C6 at a concrete engine and row list. -/
theorem hash_mismatch_fatal_witness :
    runHarness eW false true [rowW] = .error .hashMismatch :=
  (hash_mismatch_fatal eW false true [rowW] rfl).1

/-- Claim C10: `try_add_unadi` returns `None` (and the `run` wrapper
`false`) without touching the prakriya both when no term is tagged
`Dhatu` and when the term immediately after the first dhātu has upadeśa
`RiN`. -/
theorem unadi_guards_return_none (p : Prakriya) (k : Unadi) :
    ((∀ t ∈ p.terms, t.isDhatu = false) →
      tryAddUnadi p k = some (p, none) ∧
      runUnadi p (.Unadi k) = some (p, false)) ∧
    (∀ i, p.findFirstTag Tag.Dhatu = some i →
      p.hasAt (i + 1) (fun t => t.hasU "RiN") = true →
      tryAddUnadi p k = some (p, none) ∧
      runUnadi p (.Unadi k) = some (p, false)) := by
  constructor
  · intro h
    have hn : p.findFirstTag Tag.Dhatu = none :=
      findFirstWhere_eq_none (fun t ht => h t ht)
    have h1 : tryAddUnadi p k = some (p, none) := by
      unfold tryAddUnadi; rw [hn]
    refine ⟨h1, ?_⟩
    simp [runUnadi, h1]
  · intro i hi hr
    have h1 : tryAddUnadi p k = some (p, none) := by
      unfold tryAddUnadi; rw [hi]
      simp [tryAddUnadiCore, hr]
    refine ⟨h1, ?_⟩
    simp [runUnadi, h1]

/-- Witness for C10: a prakriya with no dhātu, and the kṛ + `RiN`
prakriya, both make the dispatcher report failure without changes. -/
theorem unadi_guards_return_none_witness :
    (tryAddUnadi pNoDhatu .uR = some (pNoDhatu, none) ∧
      runUnadi pNoDhatu (.Unadi .uR) = some (pNoDhatu, false)) ∧
    (tryAddUnadi pRin .katu = some (pRin, none) ∧
      runUnadi pRin (.Unadi .katu) = some (pRin, false)) :=
  ⟨(unadi_guards_return_none pNoDhatu .uR).1 (by decide),
   (unadi_guards_return_none pRin .katu).2 0 (by decide) (by decide)⟩

/-- An it-saṃjñā run that returned a prakriya processed the indexed
term. -/
theorem itSamjnaRun_eq_some {q q2 : Prakriya} {i : Nat}
    (h : itSamjnaRun q i = some q2) : q2 = q.set i itSamjnaTerm := by
  unfold itSamjnaRun at h
  by_cases hlt : i < q.terms.length
  · rw [if_pos hlt] at h
    injection h with h
    exact h.symm
  · rw [if_neg hlt] at h
    cases h

/-- Setting the final term of a prakriya whose terms end in `t`. -/
theorem set_last_append (q : Prakriya) (l : List Term) (t : Term)
    (g : Term → Term) (hq : q.terms = l ++ [t]) :
    q.set (q.terms.length - 1) g = { q with terms := l ++ [g t] } := by
  unfold Prakriya.set
  have h1 : modifyAt q.terms (q.terms.length - 1) g = l ++ [g t] := by
    rw [hq]
    have h2 : (l ++ [t]).length - 1 = l.length := by simp
    rw [h2]
    exact modifyAt_append_length l t g
  rw [h1]

/-- Evaluating `try_add` on a fresh `KrtPrakriya` for the very affix it
requests: the affix term is pushed, it-saṃjñā processed, and the rule
logged. -/
theorem tryAdd_new_eq (p : Prakriya) (rule : Rule) (k : Krt) :
    (KrtPrakriya.new p k).tryAdd rule k =
      some (⟨{ p with
          terms := p.terms ++ [itSamjnaTerm k.toTerm],
          steps := p.steps ++ [ruleCode rule] },
        (KrtPrakriya.new p k).iDhatu, k, none, true, true⟩, true) := by
  simp only [KrtPrakriya.tryAdd, KrtPrakriya.tryAddWith]
  split
  case isFalse hcond => exact absurd ⟨rfl, rfl⟩ hcond
  case isTrue hcond =>
    split
    next heq =>
      exfalso
      have hl : ((KrtPrakriya.new p k).p.run rule
          (fun q => q.push k.toTerm)).terms.length =
          p.terms.length + 1 := by
        show (p.terms ++ [k.toTerm]).length = _
        simp
      unfold itSamjnaRun at heq
      rw [if_pos (by omega)] at heq
      cases heq
    next p2 heq =>
      have h2 := itSamjnaRun_eq_some heq
      rw [set_last_append _ p.terms k.toTerm itSamjnaTerm (by rfl)] at h2
      subst h2
      rfl

/-- Claim C1 (amended): for a prakriya whose first dhātu term has upadeśa
`qukf\Y` — provided the term immediately after it does not have upadeśa
`RiN`, which makes the dispatcher bail out — `try_add_unadi` with affix
`uR` appends the it-processed `uR` pratyaya (text `u`, tagged ṇit) as the
new final term under UP 1.1 and reports success; on the single-term
resolved root `kf`, the spec-modelled aṅga readout of the result is the
stem `kAru`. -/
theorem unadi_uR_on_kf (p : Prakriya) (i : Nat) (d : Term)
    (hfind : p.findFirstTag Tag.Dhatu = some i)
    (hget : p.terms[i]? = some d)
    (hu : d.upadesha = "qukf\\Y")
    (hrin : p.hasAt (i + 1) (fun t => t.hasU "RiN") = false) :
    tryAddUnadi p .uR =
      some ({ p with
          terms := p.terms ++ [uRFinal],
          steps := p.steps ++ ["UP 1.1"] }, some true) ∧
    (∀ t, p.terms = [t] → t.text = "kf" →
      angaStemAfterUnadi { p with
          terms := p.terms ++ [uRFinal],
          steps := p.steps ++ ["UP 1.1"] } = "kAru") := by
  have hnew : (KrtPrakriya.new p (Krt.Unadi Unadi.uR)).iDhatu = i := by
    show (findFirstWhere Term.isDhatu p.terms).getD 0 = i
    rw [findFirstWhere_isDhatu, hfind]
    rfl
  have hdh : (KrtPrakriya.new p (Krt.Unadi Unadi.uR)).dhatuOf = some d := by
    show p.terms[(KrtPrakriya.new p (Krt.Unadi Unadi.uR)).iDhatu]? = some d
    rw [hnew]
    exact hget
  have hin : d.hasUIn ["qukf\\Y", "vA\\", "pA\\", "ji\\", "qumi\\Y",
      "zvada~\\", "sA\\Da~", "aSU~\\"] = true := by
    unfold Term.hasUIn
    rw [hu]
    decide
  constructor
  · unfold tryAddUnadi
    rw [hfind]
    show tryAddUnadiCore p Unadi.uR i = _
    unfold tryAddUnadiCore
    rw [hrin]
    rw [if_neg (by decide)]
    rw [hdh]
    simp only [unadiDispatch]
    rw [hin]
    rw [if_pos rfl]
    rw [tryAdd_new_eq p (.UP "1.1") (Krt.Unadi Unadi.uR)]
    rfl
  · intro t ht htext
    unfold angaStemAfterUnadi
    rw [ht]
    show (match ([t] ++ [uRFinal] : List Term) with
      | [d2, a] =>
        if a.hasTag Tag.Rit then vrddhiFinal d2.text ++ a.text
        else d2.text ++ a.text
      | _ => "") = "kAru"
    show (if uRFinal.hasTag Tag.Rit then vrddhiFinal t.text ++ uRFinal.text
      else t.text ++ uRFinal.text) = "kAru"
    rw [if_pos (by decide), htext]
    decide

/-- Witness for C1, at the single-term kṛ prakriya: the result and the
`kAru` readout, concretely. -/
theorem unadi_uR_on_kf_witness :
    tryAddUnadi pKf .uR =
      some ({ pKf with
          terms := pKf.terms ++ [uRFinal],
          steps := pKf.steps ++ ["UP 1.1"] }, some true) ∧
    angaStemAfterUnadi { pKf with
        terms := pKf.terms ++ [uRFinal],
        steps := pKf.steps ++ ["UP 1.1"] } = "kAru" := by
  have h := unadi_uR_on_kf pKf 0 kfT rfl rfl rfl rfl
  exact ⟨h.1, h.2 kfT rfl rfl⟩

/-- Counterexample for C1 as stated: a prakriya whose first dhātu term
has upadeśa `qukf\Y` but is followed by a `RiN` term; the dispatcher
returns `None` (failure) and adds nothing, so the claim's unconditional
success does not hold. -/
theorem unadi_uR_on_kf_cex :
    pRin.findFirstTag Tag.Dhatu = some 0 ∧
    pRin.terms[0]?.map Term.upadesha = some "qukf\\Y" ∧
    tryAddUnadi pRin .uR = some (pRin, none) := by
  refine ⟨rfl, rfl, ?_⟩
  rfl

/-- Claim C2: whenever `try_add_with` runs, the it-saṃjñā processor is
run immediately on the newly inserted last term and succeeds (the `none`
branch modelling the Rust `expect` is never reached), and when the affix
was inserted the final term carries no marker residue. The hypotheses
say that `func` neither changes the number of terms nor the text of the
last term — true of every closure the kṛt module passes (they only
`set` texts of earlier terms or add tags). -/
theorem tryAddWith_it_samjna_total (kp : KrtPrakriya) (rule : Rule)
    (krt : Krt) (f : Prakriya → Prakriya)
    (hlen : ∀ q : Prakriya, (f q).terms.length = q.terms.length)
    (hlast : ∀ q : Prakriya, lastText (f q) = lastText q) :
    ∃ out, kp.tryAddWith rule krt f = some out ∧
      (out.2 = true →
        ∃ t, lastOf out.1.p.terms = some t ∧ hasItResidue t.text = false) := by
  by_cases hc : kp.krt = krt ∧ kp.hasKrt = false
  case neg =>
    refine ⟨({ kp with hadMatch := true }, false), ?_, ?_⟩
    · unfold KrtPrakriya.tryAddWith
      rw [if_neg hc]
    · intro h; exact absurd h (by simp)
  case pos =>
    have hq0last :
        (lastOf (kp.p.push krt.toTerm).terms).map Term.text =
          some krt.asStr := by
      show (lastOf (kp.p.terms ++ [krt.toTerm])).map Term.text = _
      rw [lastOf_append_single]
      simp [toTerm_text]
    have hp1 :
        (kp.p.run rule (fun p => f (p.push krt.toTerm))).terms =
          (f (kp.p.push krt.toTerm)).terms := rfl
    have hp1len :
        (kp.p.run rule (fun p => f (p.push krt.toTerm))).terms.length =
          kp.p.terms.length + 1 := by
      rw [hp1, hlen]
      simp [Prakriya.push]
    have hp1last :
        (lastOf (kp.p.run rule
          (fun p => f (p.push krt.toTerm))).terms).map Term.text =
          some krt.asStr := by
      rw [hp1]
      have hl := hlast (kp.p.push krt.toTerm)
      unfold lastText at hl
      rw [hl]
      exact hq0last
    obtain ⟨tl, htl, htltext⟩ :
        ∃ tl, lastOf (kp.p.run rule
          (fun p => f (p.push krt.toTerm))).terms = some tl ∧
          tl.text = krt.asStr := by
      cases h : lastOf (kp.p.run rule
          (fun p => f (p.push krt.toTerm))).terms with
      | none => rw [h] at hp1last; simp at hp1last
      | some tl =>
        rw [h] at hp1last
        exact ⟨tl, rfl, by simpa using hp1last⟩
    have hlt :
        (kp.p.run rule (fun p => f (p.push krt.toTerm))).terms.length - 1 <
          (kp.p.run rule (fun p => f (p.push krt.toTerm))).terms.length := by
      rw [hp1len]; omega
    have hne : (kp.p.run rule (fun p => f (p.push krt.toTerm))).terms ≠ [] := by
      intro habs
      rw [habs] at hp1len
      simp at hp1len
    have hsamjna :
        itSamjnaRun (kp.p.run rule (fun p => f (p.push krt.toTerm)))
          ((kp.p.run rule (fun p => f (p.push krt.toTerm))).terms.length - 1) =
        some ((kp.p.run rule (fun p => f (p.push krt.toTerm))).set
          ((kp.p.run rule (fun p => f (p.push krt.toTerm))).terms.length - 1)
          itSamjnaTerm) := by
      unfold itSamjnaRun
      rw [if_pos hlt]
    have hp2last :
        lastOf ((kp.p.run rule (fun p => f (p.push krt.toTerm))).set
          ((kp.p.run rule (fun p => f (p.push krt.toTerm))).terms.length - 1)
          itSamjnaTerm).terms = some (itSamjnaTerm tl) := by
      show lastOf (modifyAt _ _ _) = _
      rw [lastOf_modifyAt_last _ _ hne, htl]
      rfl
    have hres : hasItResidue (itSamjnaTerm tl).text = false := by
      rw [itSamjnaTerm_text, htltext]
      exact itProcess_no_residue krt
    cases hra : kp.ruleArtha with
    | none =>
      refine ⟨(⟨(kp.p.run rule (fun p => f (p.push krt.toTerm))).set
          ((kp.p.run rule (fun p => f (p.push krt.toTerm))).terms.length - 1)
          itSamjnaTerm, kp.iDhatu, kp.krt, kp.ruleArtha, true, true⟩,
          true), ?_, ?_⟩
      · simp only [KrtPrakriya.tryAddWith, if_pos hc, hsamjna, hra]
      · intro _
        exact ⟨itSamjnaTerm tl, hp2last, hres⟩
    | some a =>
      refine ⟨(⟨((kp.p.run rule (fun p => f (p.push krt.toTerm))).set
          ((kp.p.run rule (fun p => f (p.push krt.toTerm))).terms.length - 1)
          itSamjnaTerm).setArtha a, kp.iDhatu, kp.krt, kp.ruleArtha, true,
          true⟩, true), ?_, ?_⟩
      · simp only [KrtPrakriya.tryAddWith, if_pos hc, hsamjna, hra]
      · intro _
        exact ⟨itSamjnaTerm tl, hp2last, hres⟩

/-- Witness for C2: inserting `uR` on the kṛ prakriya with the identity
closure succeeds and the inserted term is marker-free. -/
theorem tryAddWith_it_samjna_total_witness :
    ∃ out, kpFresh.tryAddWith (.UP "1.1") (.Unadi .uR) (fun p => p) =
        some out ∧
      (out.2 = true →
        ∃ t, lastOf out.1.p.terms = some t ∧ hasItResidue t.text = false) :=
  tryAddWith_it_samjna_total kpFresh (.UP "1.1") (.Unadi .uR) (fun p => p)
    (fun _ => rfl) (fun _ => rfl)

/-- Claim C5 (amended): for a well-formed row whose fields all parse, the
harness reports `[ FAIL ]` exactly when the sorted, deduplicated list of
derived texts differs, as a list, from the `|`-split expected field (for
krdanta rows with empty pieces filtered out) — a list comparison, not a
set comparison. -/
theorem row_failure_iff_list_neq (e : Engine)
    (padas f1 f2 f3 f4 f5 f6 f7 f8 : String)
    (dh sn pr la pu va : String) (r : KRow) (kt : List String)
    (h1 : e.createDhatu f1 f2 f3 = some dh)
    (h2 : e.parseSanadi f4 = some sn)
    (h3 : e.parsePrayoga f5 = some pr)
    (h4 : e.parseLakara f6 = some la)
    (h5 : e.parsePurusha f7 = some pu)
    (h6 : e.parseVacana f8 = some va)
    (h7 : e.deriveKrd r.rest = some kt) :
    (testTinanta e [padas, f1, f2, f3, f4, f5, f6, f7, f8] = .failReported ↔
      splitPipe padas ≠ sortDedup (e.deriveTin dh sn pr la pu va)) ∧
    (testTinanta e [padas, f1, f2, f3, f4, f5, f6, f7, f8] = .passed ↔
      splitPipe padas = sortDedup (e.deriveTin dh sn pr la pu va)) ∧
    (testKrdanta e (some r) = .failReported ↔
      (splitPipe r.padas).filter (fun s => s ≠ "") ≠ sortDedup kt) := by
  have hT : testTinanta e [padas, f1, f2, f3, f4, f5, f6, f7, f8] =
      (if splitPipe padas = sortDedup (e.deriveTin dh sn pr la pu va)
       then RowOutcome.passed else RowOutcome.failReported) := by
    simp only [testTinanta, List.getElem?_cons_zero, List.getElem?_cons_succ,
      h1, h2, h3, h4, h5, h6]
  have hK : testKrdanta e (some r) =
      (if (splitPipe r.padas).filter (fun s => s ≠ "") = sortDedup kt
       then RowOutcome.passed else RowOutcome.failReported) := by
    simp only [testKrdanta, h7]
  refine ⟨?_, ?_, ?_⟩
  · rw [hT]
    by_cases hc : splitPipe padas = sortDedup (e.deriveTin dh sn pr la pu va)
    · rw [if_pos hc]; simp [hc]
    · rw [if_neg hc]; simp [hc]
  · rw [hT]
    by_cases hc : splitPipe padas = sortDedup (e.deriveTin dh sn pr la pu va)
    · rw [if_pos hc]; simp [hc]
    · rw [if_neg hc]; simp [hc]
  · rw [hK]
    by_cases hc : (splitPipe r.padas).filter (fun s => s ≠ "") = sortDedup kt
    · rw [if_pos hc]
      constructor
      · intro habs; exact absurd habs (by decide)
      · intro hne; exact absurd hc hne
    · rw [if_neg hc]
      exact ⟨fun _ => hc, fun _ => rfl⟩

/-- Witness for C5 at a concrete engine and row. -/
theorem row_failure_iff_list_neq_witness :
    (testTinanta eW rowW = .failReported ↔
      splitPipe "Bavati" ≠ sortDedup (eW.deriveTin "dh" "sn" "pr" "la" "pu" "va")) ∧
    (testTinanta eW rowW = .passed ↔
      splitPipe "Bavati" = sortDedup (eW.deriveTin "dh" "sn" "pr" "la" "pu" "va")) ∧
    (testKrdanta eW (some ⟨"kAruH", []⟩) = .failReported ↔
      (splitPipe "kAruH").filter (fun s => s ≠ "") ≠ sortDedup ["kAruH"]) :=
  row_failure_iff_list_neq eW "Bavati" "BU" "01" "0001" "" "kartari" "la~w"
    "praTama" "eka" "dh" "sn" "pr" "la" "pu" "va" ⟨"kAruH", []⟩ ["kAruH"]
    rfl rfl rfl rfl rfl rfl rfl

/-- Counterexample for C5 as stated: a row expecting `b|a` whose engine
derives exactly the set `{a, b}` — the sets coincide, yet the harness
reports a failure, because the comparison is against the raw `|`-split
list while the derived list is sorted. -/
theorem row_failure_set_cex :
    testTinanta eBA rowBA = .failReported ∧
    sameSet (sortDedup ["b", "a"]) (splitPipe "b|a") = true := by
  exact ⟨rfl, rfl⟩

/-- Claim C7 (amended): the harness exits 0 exactly when the arguments,
hash and file read are fine and no row panicked; mismatch reports never
affect the exit code, every row of the list is processed independently
(malformed rows only yield an ERROR outcome), but a row with fewer than
four fields panics via record indexing, aborting with a non-zero exit. -/
theorem harness_exit_codes (argsOk hashOk ioOk : Bool) (e : Engine)
    (rows rows2 : List (List String)) (fields : List String) :
    (mainExit argsOk e hashOk ioOk rows = 0 ↔
      argsOk = true ∧ hashOk = true ∧ ioOk = true ∧
        anyPanicked (runTinRows e rows) = false) ∧
    (runTinRows e (rows ++ rows2) = runTinRows e rows ++ runTinRows e rows2) ∧
    (fields.length < 4 → testTinanta e fields = .panicked) := by
  refine ⟨?_, ?_, ?_⟩
  · cases argsOk with
    | false => simp [mainExit]
    | true =>
      cases hashOk with
      | false => simp [mainExit, runHarness]
      | true =>
        cases ioOk with
        | false => simp [mainExit, runHarness]
        | true =>
          cases hc : anyPanicked (runTinRows e rows) <;>
            simp [mainExit, runHarness, hc]
  · simp [runTinRows]
  · intro hlen
    rcases fields with _ | ⟨a, fields⟩
    · rfl
    rcases fields with _ | ⟨b, fields⟩
    · rfl
    rcases fields with _ | ⟨c, fields⟩
    · rfl
    rcases fields with _ | ⟨d4, fields⟩
    · rfl
    · exfalso
      simp only [List.length_cons] at hlen
      omega

/-- Witness for C7: a clean run exits 0, and a two-field row panics. -/
theorem harness_exit_codes_witness :
    mainExit true eW true true [] = 0 ∧
    testTinanta eW ["a", "b"] = .panicked :=
  ⟨(harness_exit_codes true true true eW [] [] ["a", "b"]).1.mpr
      ⟨rfl, rfl, rfl, rfl⟩,
    (harness_exit_codes true true true eW [] [] ["a", "b"]).2.2 (by decide)⟩

/-- Counterexample for C7 as stated: with valid arguments, a readable
file and a matching hash, a malformed two-field row does not print an
ERROR line and continue — it panics, and the process exit code becomes
non-zero (101) although no I/O or argument error occurred. -/
theorem harness_exit_codes_cex :
    testTinanta eW ["a", "b"] = .panicked ∧
    mainExit true eW true true [["a", "b"]] = 101 := by
  exact ⟨rfl, rfl⟩

end Vidyut
